import Mathlib

/- Verification of the transaction attestation tool (tx_attest.py): a shallow
embedding of its canonicalizer, content hasher, comparator and orchestrator,
with theorems checking the natural-language specification against the code. -/

namespace TxAttest

/- Python values that can appear as fields of a raw or canonical transaction
record: None, arbitrary-precision integers, strings, and byte sequences. -/
inductive PyVal where
  | none : PyVal
  | int (n : Int) : PyVal
  | str (s : String) : PyVal
  | bytes (bs : List Nat) : PyVal
deriving DecidableEq, Repr

/- A Python dict is modelled as an association list of string keys to values.
All records built by the program have pairwise distinct keys. -/
abbrev Record := List (String × PyVal)

def keys (r : Record) : List String := r.map (fun p => p.1)

/- Dictionary lookup: `r[k]` when present. -/
def pyLookup (r : Record) (k : String) : Option PyVal :=
  match r with
  | [] => Option.none
  | (k', v) :: rest => if k' = k then some v else pyLookup rest k

/- Python `r.get(k)`: absent keys give None. -/
def pyGetN (r : Record) (k : String) : PyVal := (pyLookup r k).getD PyVal.none

/- Python `r.get(k, d)`. -/
def pyGetD (r : Record) (k : String) (d : PyVal) : PyVal := (pyLookup r k).getD d

/- Python `"error" in r`. -/
def hasError (r : Record) : Bool := (keys r).contains "error"

/- Characters stripped by Python `int(str)` before parsing (ASCII whitespace). -/
def isPyWs (c : Char) : Bool :=
  c = ' ' || c = '\t' || c = '\n' || c = '\r' || c = '\x0b' || c = '\x0c'

def digitVal (c : Char) : Option Nat :=
  if '0' ≤ c ∧ c ≤ '9' then some (c.toNat - 48) else Option.none

/- Digit run of a Python integer literal: digits with single underscores
allowed between digits. `acc` is the value of the digits already read,
`afterUnd` whether the previous character was an underscore (which must be
followed by a digit). -/
def parseRun (acc : Nat) (afterUnd : Bool) : List Char → Option Nat
  | [] => if afterUnd then Option.none else some acc
  | c :: cs =>
    match digitVal c with
    | some d => parseRun (10 * acc + d) false cs
    | Option.none =>
      if c = '_' && !afterUnd then parseRun acc true cs
      else Option.none

/- The run must start with a digit. -/
def startDigits : List Char → Option Nat
  | [] => Option.none
  | c :: cs =>
    match digitVal c with
    | some d => parseRun d false cs
    | Option.none => Option.none

def stripWs (l : List Char) : List Char :=
  ((l.dropWhile isPyWs).reverse.dropWhile isPyWs).reverse

def parseSignedDigits (l : List Char) : Option Int :=
  match l with
  | [] => Option.none
  | c :: cs =>
    if c = '+' then (startDigits cs).map Int.ofNat
    else if c = '-' then (startDigits cs).map (fun n => -(Int.ofNat n))
    else (startDigits (c :: cs)).map Int.ofNat

def pyIntOfChars (l : List Char) : Option Int := parseSignedDigits (stripWs l)

/- Python `int(v)` for the values of our model: exact on int; parses decimal
text (with optional sign, surrounding whitespace, and digit-group
underscores) on str and ASCII bytes; raises on anything else. -/
def pyInt : PyVal → Except String Int
  | .int n => .ok n
  | .str s =>
    match pyIntOfChars s.data with
    | some n => .ok n
    | Option.none => .error ("invalid literal for int() with base 10: '" ++ s ++ "'")
  | .bytes bs =>
    if bs.all (fun b => b < 128) then
      match pyIntOfChars (bs.map Char.ofNat) with
      | some n => .ok n
      | Option.none => .error "invalid literal for int() with base 10 on bytes"
    else .error "invalid literal for int() with base 10 on bytes"
  | .none => .error "int() argument must be a string, a bytes-like object or a real number, not 'NoneType'"

/- Lowercase hex rendering of a byte sequence, as Python `bytes.hex()`:
two hex digits per byte and no 0x mark in front. -/
def hexDigitChar (n : Nat) : Char :=
  Char.ofNat (if n < 10 then 48 + n else 87 + n)

def byteHex (b : Nat) : String :=
  String.mk [hexDigitChar ((b / 16) % 16), hexDigitChar (b % 16)]

def bytesHex (bs : List Nat) : String :=
  String.join (bs.map byteHex)

/- `tx.get("hash").hex() if isinstance(tx.get("hash"), bytes) else tx.get("hash")` -/
def hashVal (tx : Record) : PyVal :=
  match pyGetN tx "hash" with
  | .bytes bs => .str (bytesHex bs)
  | v => v

/- `int(tx.get(k, 0))` — the zero-default numeric fields. -/
def reqNum (tx : Record) (k : String) : Except String Int :=
  pyInt (pyGetD tx k (.int 0))

/- `int(tx.get(k, 0)) if tx.get(k) is not None else None` — optional fields. -/
def optNum (tx : Record) (k : String) : Except String PyVal :=
  match pyGetN tx k with
  | .none => .ok .none
  | v => (pyInt v).map PyVal.int

/- The fixed canonical record literal of canonical_tx, given the already
coerced numeric fields. -/
def canonRecord (tx : Record) (n vl g : Int) (gp mf mp ty ci : PyVal)
    (vv rr ss : Int) (bn ti : PyVal) : Record :=
  [("hash", hashVal tx),
   ("nonce", .int n),
   ("from", pyGetN tx "from"),
   ("to", pyGetN tx "to"),
   ("value", .int vl),
   ("gas", .int g),
   ("gasPrice", gp),
   ("maxFeePerGas", mf),
   ("maxPriorityFeePerGas", mp),
   ("type", ty),
   ("input", pyGetN tx "input"),
   ("accessList", pyGetN tx "accessList"),
   ("chainId", ci),
   ("v", .int vv),
   ("r", .int rr),
   ("s", .int ss),
   ("blockNumber", bn),
   ("transactionIndex", ti)]

/- canonical_tx: normalize a raw transaction record into the canonical
dictionary; a failing numeric coercion propagates as the Python exception
raised while building the dict literal (fields in literal order). -/
def canonical_tx (tx : Record) : Except String Record :=
  (reqNum tx "nonce").bind fun n =>
  (reqNum tx "value").bind fun vl =>
  (reqNum tx "gas").bind fun g =>
  (optNum tx "gasPrice").bind fun gp =>
  (optNum tx "maxFeePerGas").bind fun mf =>
  (optNum tx "maxPriorityFeePerGas").bind fun mp =>
  (optNum tx "type").bind fun ty =>
  (optNum tx "chainId").bind fun ci =>
  (reqNum tx "v").bind fun vv =>
  (reqNum tx "r").bind fun rr =>
  (reqNum tx "s").bind fun ss =>
  (optNum tx "blockNumber").bind fun bn =>
  (optNum tx "transactionIndex").bind fun ti =>
  .ok (canonRecord tx n vl g gp mf mp ty ci vv rr ss bn ti)

/- The fixed field set of a canonical record, in construction order. -/
def canonFieldNames : List String :=
  ["hash", "nonce", "from", "to", "value", "gas", "gasPrice", "maxFeePerGas",
   "maxPriorityFeePerGas", "type", "input", "accessList", "chainId", "v", "r",
   "s", "blockNumber", "transactionIndex"]

/- Python string comparison: lexicographic by code point. -/
def charListLt : List Char → List Char → Bool
  | [], [] => false
  | [], _ :: _ => true
  | _ :: _, [] => false
  | c :: cs, d :: ds =>
    if c.toNat < d.toNat then true
    else if d.toNat < c.toNat then false
    else charListLt cs ds

def strLt (a b : String) : Bool := charListLt a.data b.data

/- Insertion into a strictly sorted duplicate-free list of keys.  Folding it
over a key list realises Python `sorted(set(l))` (string order is by code
point on both sides). -/
def insertSorted (x : String) : List String → List String
  | [] => [x]
  | y :: ys =>
    if strLt x y then x :: y :: ys
    else if x = y then y :: ys
    else y :: insertSorted x ys

def sortedDedup (l : List String) : List String := l.foldr insertSorted []

/- Python dict equality: same key set and equal values at every key. -/
def pyDictEq (a b : Record) : Bool :=
  decide (sortedDedup (keys a) = sortedDedup (keys b))
    && (sortedDedup (keys a)).all (fun k => decide (pyLookup a k = pyLookup b k))

/- JSON escaping of one character, as json.dumps with ensure_ascii. -/
def hex4 (n : Nat) : String :=
  String.mk [hexDigitChar ((n / 4096) % 16), hexDigitChar ((n / 256) % 16),
             hexDigitChar ((n / 16) % 16), hexDigitChar (n % 16)]

def jsonEscChar (c : Char) : String :=
  if c = '"' then "\\\""
  else if c = '\\' then "\\\\"
  else if c = '\n' then "\\n"
  else if c = '\r' then "\\r"
  else if c = '\t' then "\\t"
  else if c = '\x08' then "\\b"
  else if c = '\x0c' then "\\f"
  else if c.toNat < 32 then "\\u" ++ hex4 c.toNat
  else if c.toNat < 127 then String.singleton c
  else if c.toNat < 65536 then "\\u" ++ hex4 c.toNat
  else
    let m := c.toNat - 65536
    "\\u" ++ hex4 (55296 + m / 1024) ++ "\\u" ++ hex4 (56320 + m % 1024)

def jsonStr (s : String) : String :=
  "\"" ++ String.join (s.data.map jsonEscChar) ++ "\""

/- JSON rendering of a single value; byte sequences are not serializable in
json.dumps (Python raises TypeError there), rendered as failure. -/
def dumpVal : PyVal → Option String
  | .none => some "null"
  | .int n => some (toString n)
  | .str s => some (jsonStr s)
  | .bytes _ => Option.none

def dumpEntries (r : Record) : List String → Option (List String)
  | [] => some []
  | k :: ks =>
    match dumpVal (pyGetN r k) with
    | some s => (dumpEntries r ks).map (fun rest => (jsonStr k ++ ":" ++ s) :: rest)
    | Option.none => Option.none

/- json.dumps(record, sort_keys=True, separators=(",", ":")). -/
def dumpsRecord (r : Record) : Option String :=
  (dumpEntries r (sortedDedup (keys r))).map
    (fun parts => "\x7b" ++ String.intercalate "," parts ++ "\x7d")

/- UTF-8 encoding of the serialized form (str.encode()). -/
def utf8Char (n : Nat) : List Nat :=
  if n < 128 then [n]
  else if n < 2048 then [192 + n / 64, 128 + n % 64]
  else if n < 65536 then [224 + n / 4096, 128 + (n / 64) % 64, 128 + n % 64]
  else [240 + n / 262144, 128 + (n / 4096) % 64, 128 + (n / 64) % 64, 128 + n % 64]

def utf8Bytes (s : String) : List Nat :=
  (s.data.map (fun c => utf8Char c.toNat)).flatten

/- Keccak-256 over byte sequences (the hash behind Web3.keccak), with
64-bit lanes as naturals reduced mod 2^64. -/
def rotl64 (x n : Nat) : Nat := ((x <<< n) ||| (x >>> (64 - n))) % (2 ^ 64)

def keccakRC : List Nat :=
  [0x0000000000000001, 0x0000000000008082, 0x800000000000808a, 0x8000000080008000,
   0x000000000000808b, 0x0000000080000001, 0x8000000080008081, 0x8000000000008009,
   0x000000000000008a, 0x0000000000000088, 0x0000000080008009, 0x000000008000000a,
   0x000000008000808b, 0x800000000000008b, 0x8000000000008089, 0x8000000000008003,
   0x8000000000008002, 0x8000000000000080, 0x000000000000800a, 0x800000008000000a,
   0x8000000080008081, 0x8000000000008080, 0x0000000080000001, 0x8000000080008008]

/- For each destination lane of the combined rho and pi steps: the source
lane index and the rotation amount. -/
def rhoPiTable : List (Nat × Nat) :=
  [(0, 0), (6, 44), (12, 43), (18, 21), (24, 14),
   (3, 28), (9, 20), (10, 3), (16, 45), (22, 61),
   (1, 1), (7, 6), (13, 25), (19, 8), (20, 18),
   (4, 27), (5, 36), (11, 10), (17, 15), (23, 56),
   (2, 62), (8, 55), (14, 39), (15, 41), (21, 2)]

def lane (st : List Nat) (i : Nat) : Nat := st.getD i 0

def thetaStep (st : List Nat) : List Nat :=
  let c := (List.range 5).map (fun x =>
    lane st x ^^^ lane st (x + 5) ^^^ lane st (x + 10) ^^^ lane st (x + 15) ^^^ lane st (x + 20))
  let d := (List.range 5).map (fun x =>
    (c.getD ((x + 4) % 5) 0) ^^^ rotl64 (c.getD ((x + 1) % 5) 0) 1)
  (List.range 25).map (fun i => lane st i ^^^ d.getD (i % 5) 0)

def rhoPiStep (st : List Nat) : List Nat :=
  rhoPiTable.map (fun p => rotl64 (lane st p.1) p.2)

def chiStep (st : List Nat) : List Nat :=
  (List.range 25).map (fun i =>
    let x := i % 5
    let y := i - x
    lane st i ^^^ (((lane st (y + (x + 1) % 5)) ^^^ (2 ^ 64 - 1)) &&& lane st (y + (x + 2) % 5)))

def keccakRound (st : List Nat) (rc : Nat) : List Nat :=
  match chiStep (rhoPiStep (thetaStep st)) with
  | [] => []
  | a :: rest => (a ^^^ rc) :: rest

def keccakF (st : List Nat) : List Nat := keccakRC.foldl keccakRound st

/- pad10*1 with the Keccak domain byte 0x01 at rate 136. -/
def keccakPad (msg : List Nat) : List Nat :=
  let padlen := 136 - msg.length % 136
  if padlen = 1 then msg ++ [0x81]
  else msg ++ [0x01] ++ List.replicate (padlen - 2) 0 ++ [0x80]

def chunks136 : Nat → List Nat → List (List Nat)
  | 0, _ => []
  | _ + 1, [] => []
  | fuel + 1, l => l.take 136 :: chunks136 fuel (l.drop 136)

def loadLane (bs : List Nat) : Nat := bs.foldr (fun b acc => b + 256 * acc) 0

def absorbBlock (st : List Nat) (block : List Nat) : List Nat :=
  keccakF ((List.range 25).map (fun i =>
    lane st i ^^^ (if i < 17 then loadLane ((block.drop (8 * i)).take 8) else 0)))

def laneBytes (x : Nat) : List Nat :=
  (List.range 8).map (fun i => (x >>> (8 * i)) % 256)

def keccak256 (msg : List Nat) : List Nat :=
  let padded := keccakPad msg
  let st := (chunks136 (padded.length + 1) padded).foldl absorbBlock (List.replicate 25 0)
  ((List.range 4).map (fun i => laneBytes (lane st i))).flatten

/- keccak_json: "0x" + Web3.keccak(json.dumps(obj, sort_keys=True,
separators=(",", ":")).encode()).hex().  Fails exactly when json.dumps
raises, i.e. when the record holds a byte-sequence value. -/
def keccak_json (r : Record) : Option String :=
  (dumpsRecord r).map (fun s => "0x" ++ bytesHex (keccak256 (utf8Bytes s)))

/- A record is serializable when no field value is a byte sequence. -/
def serializable (r : Record) : Bool :=
  r.all (fun p => match p.2 with | .bytes _ => false | _ => true)

/- What a source can come back with for getTransaction: a record, a None
response, or a raised exception (transport error, not-found exception). -/
inductive TxResponse where
  | notFound : TxResponse
  | found (tx : Record) : TxResponse
  | exn (msg : String) : TxResponse
deriving DecidableEq, Repr

/- fetch_tx: canonicalize the fetched record; a None result and any raised
exception (including a canonicalization error) become an error record. -/
def fetch_tx : TxResponse → Record
  | .notFound => [("error", .str "transaction not found")]
  | .exn m => [("error", .str m)]
  | .found tx =>
    match canonical_tx tx with
    | .ok c => c
    | .error m => [("error", .str m)]

inductive CompareResult where
  | fetchFailure (errorA errorB : Option PyVal) : CompareResult
  | matched (root : String) : CompareResult
  | mismatch (rootA rootB : String) (fieldDiffs : List (String × PyVal × PyVal)) : CompareResult
deriving DecidableEq, Repr

/- The field-level diff of compare_txs: over the sorted union of both key
sets, keeping exactly the keys whose values differ, with both raw values. -/
def diffFields (a b : Record) : List (String × PyVal × PyVal) :=
  (sortedDedup (keys a ++ keys b)).filterMap (fun k =>
    if pyGetN a k = pyGetN b k then Option.none
    else some (k, pyGetN a k, pyGetN b k))

/- compare_txs; the result is `Option.none` exactly when the Python
function would raise while serializing a record for hashing. -/
def compare_txs (a b : Record) : Option CompareResult :=
  if hasError a || hasError b then
    some (.fetchFailure (pyLookup a "error") (pyLookup b "error"))
  else if pyDictEq a b then
    (keccak_json a).map .matched
  else
    match keccak_json a, keccak_json b with
    | some ra, some rb => some (.mismatch ra rb (diffFields a b))
    | _, _ => Option.none

/- A transaction source: its connectivity, chain identity and transaction
responses (the external TransactionSource capability). -/
structure Source where
  connected : Bool
  chain_id : Int
  response : String → TxResponse

/- Network interactions of one run, in order. -/
inductive MEvent where
  | connectA | connectB | chainA | chainB
  | getTxA (h : String) : MEvent
  | getTxB (h : String) : MEvent
deriving DecidableEq, Repr

inductive Outcome where
  | exited (code : Nat) : Outcome
  | completed (r : Option CompareResult) : Outcome
deriving DecidableEq, Repr

/- The txHash gate of main: txh.startswith("0x") and len(txh) == 66.
Python startswith compares the leading code points. -/
def validHashFormat (txh : String) : Bool :=
  decide (txh.data.take 2 = ['0', 'x']) && txh.length == 66

/- main after argument selection: hash-format gate, connect both sources,
chain-identity gate, fetch from both, compare.  The event list records the
network interactions that happened. -/
def main_run (txh : String) (srcA srcB : Source) : Outcome × List MEvent :=
  if !validHashFormat txh then (.exited 2, [])
  else if !srcA.connected then (.exited 1, [.connectA])
  else if !srcB.connected then (.exited 1, [.connectA, .connectB])
  else if srcA.chain_id ≠ srcB.chain_id then
    (.exited 3, [.connectA, .connectB, .chainA, .chainB])
  else
    (.completed (compare_txs (fetch_tx (srcA.response txh)) (fetch_tx (srcB.response txh))),
     [.connectA, .connectB, .chainA, .chainB, .getTxA txh, .getTxB txh])

def exceptOk {α : Type} : Except String α → Bool
  | .ok _ => true
  | .error _ => false

/- The canonical hash field of a successfully canonicalized record. -/
def canonHash (tx : Record) : Option PyVal :=
  match canonical_tx tx with
  | .ok c => some (pyGetN c "hash")
  | .error _ => Option.none

/- All numeric coercions of canonical_tx succeed on this input. -/
def numFieldsOk (tx : Record) : Bool :=
  exceptOk (reqNum tx "nonce") && exceptOk (reqNum tx "value") && exceptOk (reqNum tx "gas")
    && exceptOk (optNum tx "gasPrice") && exceptOk (optNum tx "maxFeePerGas")
    && exceptOk (optNum tx "maxPriorityFeePerGas") && exceptOk (optNum tx "type")
    && exceptOk (optNum tx "chainId") && exceptOk (reqNum tx "v") && exceptOk (reqNum tx "r")
    && exceptOk (reqNum tx "s") && exceptOk (optNum tx "blockNumber")
    && exceptOk (optNum tx "transactionIndex")

/- Modelled from the spec: the full txHash pattern the specification asks
for, a 0x mark followed by exactly 64 hexadecimal characters.  This is the
spec-side definition, compared against the validHashFormat check of main. -/
def spec_hash_pattern (s : String) : Bool :=
  decide (s.data.take 2 = ['0', 'x']) && s.length == 66
    && (s.data.drop 2).all (fun c => c.isDigit || ('a' ≤ c ∧ c ≤ 'f') || ('A' ≤ c ∧ c ≤ 'F'))

/- Concrete inputs used to exercise the theorems. -/
def baseCanon (n vl g : Int) : Record :=
  [("hash", .none), ("nonce", .int n), ("from", .none), ("to", .none),
   ("value", .int vl), ("gas", .int g), ("gasPrice", .none), ("maxFeePerGas", .none),
   ("maxPriorityFeePerGas", .none), ("type", .none), ("input", .none),
   ("accessList", .none), ("chainId", .none), ("v", .int 0), ("r", .int 0),
   ("s", .int 0), ("blockNumber", .none), ("transactionIndex", .none)]

def emptyCanon : Record := baseCanon 0 0 0

def c1BytesHash : List Nat := List.replicate 32 0x11

def c1HexStr : String := String.mk (List.replicate 64 '1')

def c2rawA : Record :=
  [("nonce", .int 5), ("value", .int 1000000000000000000), ("gas", .int 21000)]

def c2rawB : Record :=
  [("gas", .int 21000), ("nonce", .int 5), ("value", .int 1000000000000000000)]

def c2can : Record := baseCanon 5 1000000000000000000 21000

def c3rawA : Record := [("nonce", .int 5)]

def c3rawB : Record := [("nonce", .int 6)]

def c3canA : Record := baseCanon 5 0 0

def c3canB : Record := baseCanon 6 0 0

def c3rootA : String := "0x01f9964f8d58b5b05aced1d33c00d68db896c2f0a5979c025c3c9163816a2514"

def c3rootB : String := "0xea00ac09b826627c7a7aa3ef3b5d9689b0fcc13e55b6bee35dce3dc3d2d5db2a"

def c4rawB : Record := [("from", .bytes [1, 2])]

def zHash : String := "0x" ++ String.mk (List.replicate 64 'z')

def goodHash : String := "0x" ++ String.mk (List.replicate 64 'a')

def hash65 : String := "0x" ++ String.mk (List.replicate 63 'a')

def stubSource : Source := ⟨true, 1, fun _ => TxResponse.notFound⟩

def srcChain1 : Source := ⟨true, 1, fun _ => TxResponse.notFound⟩

def srcChain10 : Source := ⟨true, 10, fun _ => TxResponse.notFound⟩

theorem bind_ok {α β : Type} {e : Except String α} {f : α → Except String β} {b : β}
    (h : e.bind f = .ok b) : ∃ a, e = .ok a ∧ f a = .ok b := by
  cases e with
  | error m => simp [Except.bind] at h
  | ok a => exact ⟨a, rfl, h⟩

theorem exceptOk_ok {α : Type} {e : Except String α} (h : exceptOk e = true) :
    ∃ a, e = .ok a := by
  cases e with
  | error m => simp [exceptOk] at h
  | ok a => exact ⟨a, rfl⟩

theorem canonical_shape {tx c : Record} (h : canonical_tx tx = .ok c) :
    ∃ n vl g gp mf mp ty ci vv rr ss bn ti,
      reqNum tx "nonce" = .ok n ∧ reqNum tx "value" = .ok vl ∧ reqNum tx "gas" = .ok g ∧
      optNum tx "gasPrice" = .ok gp ∧ optNum tx "maxFeePerGas" = .ok mf ∧
      optNum tx "maxPriorityFeePerGas" = .ok mp ∧ optNum tx "type" = .ok ty ∧
      optNum tx "chainId" = .ok ci ∧ reqNum tx "v" = .ok vv ∧ reqNum tx "r" = .ok rr ∧
      reqNum tx "s" = .ok ss ∧ optNum tx "blockNumber" = .ok bn ∧
      optNum tx "transactionIndex" = .ok ti ∧
      c = canonRecord tx n vl g gp mf mp ty ci vv rr ss bn ti := by
  unfold canonical_tx at h
  obtain ⟨n, h1, h⟩ := bind_ok h
  obtain ⟨vl, h2, h⟩ := bind_ok h
  obtain ⟨g, h3, h⟩ := bind_ok h
  obtain ⟨gp, h4, h⟩ := bind_ok h
  obtain ⟨mf, h5, h⟩ := bind_ok h
  obtain ⟨mp, h6, h⟩ := bind_ok h
  obtain ⟨ty, h7, h⟩ := bind_ok h
  obtain ⟨ci, h8, h⟩ := bind_ok h
  obtain ⟨vv, h9, h⟩ := bind_ok h
  obtain ⟨rr, h10, h⟩ := bind_ok h
  obtain ⟨ss, h11, h⟩ := bind_ok h
  obtain ⟨bn, h12, h⟩ := bind_ok h
  obtain ⟨ti, h13, h⟩ := bind_ok h
  injection h with h
  exact ⟨n, vl, g, gp, mf, mp, ty, ci, vv, rr, ss, bn, ti,
    h1, h2, h3, h4, h5, h6, h7, h8, h9, h10, h11, h12, h13, h.symm⟩

theorem canonical_keys {tx c : Record} (h : canonical_tx tx = .ok c) :
    keys c = canonFieldNames := by
  obtain ⟨n, vl, g, gp, mf, mp, ty, ci, vv, rr, ss, bn, ti,
    -, -, -, -, -, -, -, -, -, -, -, -, -, hc⟩ := canonical_shape h
  subst hc
  rfl

theorem canonical_no_error {tx c : Record} (h : canonical_tx tx = .ok c) :
    hasError c = false := by
  unfold hasError
  rw [canonical_keys h]
  decide

set_option maxRecDepth 40000 in
theorem keccak256_empty_vector :
    bytesHex (keccak256 []) =
      "c5d2460186f7233c927e7db2dcc703c0e500b653ca82273b7bfad8045d85a470" := by
  decide

set_option maxRecDepth 40000 in
theorem keccak256_abc_vector :
    bytesHex (keccak256 [97, 98, 99]) =
      "4e03657aea45a94fc7d47ba826c8d667c0d1e6e33a64a036ec44f58fa12d6c45" := by
  decide

/-- C1: the code renders a hash supplied as a raw byte sequence with
bytes.hex(), which yields bare lowercase hex without the 0x mark in front,
so the same hash supplied as bytes and as a 0x-form hex string canonicalize
to different hash values, contrary to the specified normalization. -/
theorem hash_bytes_vs_string :
    canonHash [("hash", PyVal.bytes c1BytesHash)] = some (.str c1HexStr) ∧
    canonHash [("hash", PyVal.str ("0x" ++ c1HexStr))] = some (.str ("0x" ++ c1HexStr)) ∧
    PyVal.str c1HexStr ≠ PyVal.str ("0x" ++ c1HexStr) := by
  decide

/-- C4: when either input is an error record, compare_txs short-circuits to
FetchFailure carrying both error slots (an absent side gives none); the
result holds no digest. -/
theorem compare_fetch_failure (a b : Record)
    (h : hasError a = true ∨ hasError b = true) :
    compare_txs a b
      = some (.fetchFailure (pyLookup a "error") (pyLookup b "error")) := by
  unfold compare_txs
  rcases h with h | h <;> simp [h]

/-- Witness for C4: source A reports not found, source B a transaction whose
canonical record could not even be hashed, showing no digest is computed. -/
theorem compare_fetch_failure_witness :
    hasError (fetch_tx TxResponse.notFound) = true ∧
    compare_txs (fetch_tx TxResponse.notFound) (fetch_tx (TxResponse.found c4rawB))
      = some (.fetchFailure (some (PyVal.str "transaction not found")) Option.none) :=
  ⟨by decide, (compare_fetch_failure _ _ (Or.inl (by decide))).trans (by decide)⟩

/-- C8 counterexample: a txHash of 0x followed by 64 non-hex characters
violates the specified pattern yet passes the gate of main, which then
contacts both sources instead of failing with exit code 2. -/
theorem hash_gate_counterexample :
    spec_hash_pattern zHash = false ∧ validHashFormat zHash = true ∧
    (main_run zHash stubSource stubSource).1 ≠ .exited 2 ∧
    (main_run zHash stubSource stubSource).2 ≠ [] := by
  decide

/-- C8 (amended): main rejects with exit code 2, before contacting any
source, exactly the txHash arguments lacking the 0x mark in front or of
length other than 66 characters; in particular a txHash of length 65, or
one with no 0x in front, is rejected.  The 64 tail characters are not
checked to be hexadecimal. -/
theorem hash_gate_amended :
    (∀ txh srcA srcB, validHashFormat txh = false →
      main_run txh srcA srcB = (.exited 2, [])) ∧
    (∀ s : String, s.length = 65 → validHashFormat s = false) ∧
    (∀ s : String, s.data.take 2 ≠ ['0', 'x'] → validHashFormat s = false) := by
  refine ⟨fun txh srcA srcB h => ?_, fun s h => ?_, fun s h => ?_⟩
  · unfold main_run
    rw [h]
    rfl
  · unfold validHashFormat
    rw [h]
    simp
  · unfold validHashFormat
    simp [h]

/-- Witness for C8 (amended): a 65-character hash is rejected with exit
code 2 and no source interaction. -/
theorem hash_gate_amended_witness :
    validHashFormat hash65 = false ∧ hash65.length = 65 ∧
    main_run hash65 stubSource stubSource = (.exited 2, []) :=
  ⟨by decide, by decide, hash_gate_amended.1 hash65 stubSource stubSource (by decide)⟩

/-- C9: with a well-formed hash and both sources connected, differing chain
identities make main exit with code 3 right after the connection and chain
queries, and getTransaction is invoked on neither source. -/
theorem chain_mismatch_gate (txh : String) (srcA srcB : Source)
    (hv : validHashFormat txh = true) (hca : srcA.connected = true)
    (hcb : srcB.connected = true) (hne : srcA.chain_id ≠ srcB.chain_id) :
    main_run txh srcA srcB
      = (.exited 3, [.connectA, .connectB, .chainA, .chainB]) ∧
    ∀ h, MEvent.getTxA h ∉ (main_run txh srcA srcB).2 ∧
         MEvent.getTxB h ∉ (main_run txh srcA srcB).2 := by
  have hm : main_run txh srcA srcB
      = (.exited 3, [.connectA, .connectB, .chainA, .chainB]) := by
    unfold main_run
    rw [hv, hca, hcb]
    simp [hne]
  refine ⟨hm, fun h => ?_⟩
  rw [hm]
  constructor <;> simp

/-- Witness for C9: chain identity 1 against chain identity 10. -/
theorem chain_mismatch_gate_witness :
    validHashFormat goodHash = true ∧ srcChain1.chain_id ≠ srcChain10.chain_id ∧
    main_run goodHash srcChain1 srcChain10
      = (.exited 3, [.connectA, .connectB, .chainA, .chainB]) :=
  ⟨by decide, by decide,
    (chain_mismatch_gate goodHash srcChain1 srcChain10 (by decide) rfl rfl (by decide)).1⟩

theorem digit_char_facts (d : Nat) (hd : d < 10) :
    digitVal (Char.ofNat (48 + d)) = some d ∧
    isPyWs (Char.ofNat (48 + d)) = false ∧
    Char.ofNat (48 + d) ≠ '+' ∧ Char.ofNat (48 + d) ≠ '-' := by
  interval_cases d <;> exact ⟨by decide, by decide, by decide, by decide⟩

theorem parseRun_cons_digit {c : Char} {d : Nat} (h : digitVal c = some d)
    (acc : Nat) (b : Bool) (cs : List Char) :
    parseRun acc b (c :: cs) = parseRun (10 * acc + d) false cs := by
  rw [parseRun, h]

theorem parseRun_digits (ds : List Nat) (hd : ∀ d ∈ ds, d < 10) (acc : Nat) :
    parseRun acc false (ds.map (fun d => Char.ofNat (48 + d)))
      = some (ds.foldl (fun a d => 10 * a + d) acc) := by
  induction ds generalizing acc with
  | nil => rfl
  | cons d ds ih =>
    have h1 := (digit_char_facts d (hd d (List.mem_cons_self _ _))).1
    rw [List.map_cons, parseRun_cons_digit h1, List.foldl_cons]
    exact ih (fun x hx => hd x (List.mem_cons_of_mem _ hx)) _

theorem pyInt_str_of_parse {s : String} {n : Int} (h : pyIntOfChars s.data = some n) :
    pyInt (.str s) = .ok n := by
  simp only [pyInt, h]

theorem dropWhile_all_false {l : List Char} (h : ∀ c ∈ l, isPyWs c = false) :
    l.dropWhile isPyWs = l := by
  cases l with
  | nil => rfl
  | cons c cs =>
    exact List.dropWhile_cons_of_neg (by simp [h c (List.mem_cons_self _ _)])

theorem stripWs_no_ws {l : List Char} (h : ∀ c ∈ l, isPyWs c = false) :
    stripWs l = l := by
  unfold stripWs
  rw [dropWhile_all_false h,
    dropWhile_all_false (fun c hc => h c (List.mem_reverse.mp hc)),
    List.reverse_reverse]

/-- C5 (amended): Python int() converts native integers exactly and decimal
digit strings exactly to their arbitrary-precision value (no truncation),
but a 0x-form hex string or a binary byte buffer is not parsed: it raises,
and fetch_tx surfaces it as an error record for that source, never as a
silent zero. -/
theorem numeric_coercion_exact :
    (∀ n : Int, pyInt (.int n) = .ok n) ∧
    (∀ ds : List Nat, ds ≠ [] → (∀ d ∈ ds, d < 10) →
      pyInt (.str (String.mk (ds.map (fun d => Char.ofNat (48 + d)))))
        = .ok (Int.ofNat (ds.foldl (fun a d => 10 * a + d) 0))) ∧
    exceptOk (canonical_tx [("nonce", PyVal.str "0x10")]) = false ∧
    exceptOk (canonical_tx [("nonce", PyVal.bytes [0, 5])]) = false ∧
    hasError (fetch_tx (.found [("nonce", PyVal.str "0x10")])) = true := by
  refine ⟨fun n => rfl, ?_, by decide, by decide, by decide⟩
  intro ds hne hd
  cases ds with
  | nil => exact absurd rfl hne
  | cons d ds =>
    have hc := digit_char_facts d (hd d (List.mem_cons_self _ _))
    have hds : ∀ x ∈ ds, x < 10 := fun x hx => hd x (List.mem_cons_of_mem _ hx)
    have hnws : ∀ c ∈ (d :: ds).map (fun x => Char.ofNat (48 + x)), isPyWs c = false := by
      intro c hcmem
      obtain ⟨x, hx, rfl⟩ := List.mem_map.mp hcmem
      exact (digit_char_facts x (hd x hx)).2.1
    have hparse : pyIntOfChars ((d :: ds).map (fun x => Char.ofNat (48 + x)))
        = some (Int.ofNat ((d :: ds).foldl (fun a x => 10 * a + x) 0)) := by
      unfold pyIntOfChars
      rw [stripWs_no_ws hnws]
      simp only [List.map_cons, parseSignedDigits, startDigits, hc.1,
        if_neg hc.2.2.1, if_neg hc.2.2.2, parseRun_digits ds hds,
        Option.map_some', List.foldl_cons]
      norm_num
    exact pyInt_str_of_parse hparse

/-- Witness for C5 (amended): the decimal digit string built from digits
1 and 6 parses to 16. -/
theorem numeric_coercion_exact_witness :
    ([1, 6] ≠ ([] : List Nat)) ∧
    pyInt (.str (String.mk ([1, 6].map (fun d => Char.ofNat (48 + d)))))
      = .ok (Int.ofNat ([1, 6].foldl (fun a d => 10 * a + d) 0)) :=
  ⟨by decide, numeric_coercion_exact.2.1 [1, 6] (by decide) (by decide)⟩

/-- C5 counterexample: a hex-encoded string and a fixed-width byte buffer
are not converted to an integer by canonical_tx, contrary to the claim —
the coercion raises instead. -/
theorem numeric_coercion_counterexample :
    exceptOk (canonical_tx [("nonce", PyVal.str "0x10")]) = false ∧
    exceptOk (canonical_tx [("value", PyVal.bytes [0, 5])]) = false := by
  decide

/-- C7 counterexample: a null nonce makes canonical_tx raise, so it is not
total on records with null fields. -/
theorem canonical_total_counterexample :
    exceptOk (canonical_tx [("nonce", PyVal.none)]) = false := by
  decide

/-- C7 (amended): canonical_tx is pure and returns a canonical record on
every input whose numeric fields are coercible (present integer-like
values parse, zero-default fields are not null); missing fields are filled
by the defaulting rules. -/
theorem canonical_total_amended (tx : Record) (h : numFieldsOk tx = true) :
    ∃ c, canonical_tx tx = .ok c := by
  unfold numFieldsOk at h
  simp only [Bool.and_eq_true] at h
  obtain ⟨⟨⟨⟨⟨⟨⟨⟨⟨⟨⟨⟨h1, h2⟩, h3⟩, h4⟩, h5⟩, h6⟩, h7⟩, h8⟩, h9⟩, h10⟩, h11⟩, h12⟩, h13⟩ := h
  obtain ⟨n, hn⟩ := exceptOk_ok h1
  obtain ⟨vl, hvl⟩ := exceptOk_ok h2
  obtain ⟨g, hg⟩ := exceptOk_ok h3
  obtain ⟨gp, hgp⟩ := exceptOk_ok h4
  obtain ⟨mf, hmf⟩ := exceptOk_ok h5
  obtain ⟨mp, hmp⟩ := exceptOk_ok h6
  obtain ⟨ty, hty⟩ := exceptOk_ok h7
  obtain ⟨ci, hci⟩ := exceptOk_ok h8
  obtain ⟨vv, hvv⟩ := exceptOk_ok h9
  obtain ⟨rr, hrr⟩ := exceptOk_ok h10
  obtain ⟨ss, hss⟩ := exceptOk_ok h11
  obtain ⟨bn, hbn⟩ := exceptOk_ok h12
  obtain ⟨ti, hti⟩ := exceptOk_ok h13
  refine ⟨canonRecord tx n vl g gp mf mp ty ci vv rr ss bn ti, ?_⟩
  unfold canonical_tx
  rw [hn, hvl, hg, hgp, hmf, hmp, hty, hci, hvv, hrr, hss, hbn, hti]
  rfl

/-- Witness for C7 (amended): the empty raw record canonicalizes. -/
theorem canonical_total_amended_witness :
    numFieldsOk ([] : Record) = true ∧ ∃ c, canonical_tx ([] : Record) = .ok c :=
  ⟨by decide, canonical_total_amended [] (by decide)⟩

/-- C6: a raw record whose gasPrice is absent or null canonicalizes
gasPrice to the not-present marker, which is distinct from the integer
zero; one whose nonce is absent canonicalizes nonce to zero. -/
theorem canonical_defaults (tx c : Record) (h : canonical_tx tx = .ok c) :
    (pyGetN tx "gasPrice" = PyVal.none → pyLookup c "gasPrice" = some PyVal.none) ∧
    PyVal.none ≠ PyVal.int 0 ∧
    (pyLookup tx "nonce" = Option.none → pyLookup c "nonce" = some (PyVal.int 0)) := by
  obtain ⟨n, vl, g, gp, mf, mp, ty, ci, vv, rr, ss, bn, ti,
    hn, -, -, hgp, -, -, -, -, -, -, -, -, -, hc⟩ := canonical_shape h
  subst hc
  refine ⟨fun habs => ?_, by decide, fun habs => ?_⟩
  · have hok : optNum tx "gasPrice" = .ok PyVal.none := by
      unfold optNum
      rw [habs]
    rw [hok] at hgp
    injection hgp with hgpv
    rw [← hgpv]
    simp [canonRecord, pyLookup]
  · have hok : reqNum tx "nonce" = .ok 0 := by
      unfold reqNum pyGetD
      rw [habs]
      rfl
    rw [hok] at hn
    injection hn with hnv
    rw [← hnv]
    simp [canonRecord, pyLookup]

/-- Witness for C6: the empty raw record gives the not-present gasPrice
marker and nonce zero. -/
theorem canonical_defaults_witness :
    pyLookup emptyCanon "gasPrice" = some PyVal.none ∧
    pyLookup emptyCanon "nonce" = some (PyVal.int 0) :=
  ⟨(canonical_defaults [] emptyCanon rfl).1 rfl,
   (canonical_defaults [] emptyCanon rfl).2.2 rfl⟩

/-- C10: every successfully canonicalized record has exactly the eighteen
canonical field names, in the fixed order, and no others — in particular no
error key, so compare_txs never classifies two canonicalized records as a
fetch failure. -/
theorem canonical_fixed_fields (tx c : Record) (h : canonical_tx tx = .ok c) :
    keys c = canonFieldNames ∧ hasError c = false ∧
    (∀ tx2 c2, canonical_tx tx2 = .ok c2 →
      ∀ ea eb, compare_txs c c2 ≠ some (.fetchFailure ea eb)) := by
  refine ⟨canonical_keys h, canonical_no_error h, fun tx2 c2 h2 ea eb hcmp => ?_⟩
  unfold compare_txs at hcmp
  rw [canonical_no_error h, canonical_no_error h2] at hcmp
  simp only [Bool.or_self, Bool.false_eq_true, if_false] at hcmp
  split at hcmp
  · cases hk : keccak_json c <;> rw [hk] at hcmp <;> simp at hcmp
  · cases hk1 : keccak_json c <;> cases hk2 : keccak_json c2 <;>
      rw [hk1, hk2] at hcmp <;> simp at hcmp

/-- Witness for C10: the canonical record of the empty raw record. -/
theorem canonical_fixed_fields_witness :
    keys emptyCanon = canonFieldNames ∧ hasError emptyCanon = false :=
  ⟨(canonical_fixed_fields [] emptyCanon rfl).1,
   (canonical_fixed_fields [] emptyCanon rfl).2.1⟩

theorem charEq_of_toNat {a b : Char} (h : a.toNat = b.toNat) : a = b :=
  Char.ext (UInt32.toNat.inj h)

theorem strEq_of_data {a b : String} (h : a.data = b.data) : a = b := by
  cases a
  cases b
  exact congrArg String.mk h

theorem charListLt_trans {a b c : List Char} (hab : charListLt a b = true)
    (hbc : charListLt b c = true) : charListLt a c = true := by
  induction a generalizing b c with
  | nil =>
    cases b with
    | nil => simp [charListLt] at hab
    | cons y ys =>
      cases c with
      | nil => simp [charListLt] at hbc
      | cons z zs => rfl
  | cons x xs ih =>
    cases b with
    | nil => simp [charListLt] at hab
    | cons y ys =>
      cases c with
      | nil => simp [charListLt] at hbc
      | cons z zs =>
        by_cases h1 : x.toNat < y.toNat
        · by_cases h2 : y.toNat < z.toNat
          · simp [charListLt, Nat.lt_trans h1 h2]
          · by_cases h3 : z.toNat < y.toNat
            · simp [charListLt, h2, h3] at hbc
            · have hxz : x.toNat < z.toNat := by omega
              simp [charListLt, hxz]
        · by_cases h4 : y.toNat < x.toNat
          · simp [charListLt, h1, h4] at hab
          · simp only [charListLt, if_neg h1, if_neg h4] at hab
            by_cases h2 : y.toNat < z.toNat
            · have hxz : x.toNat < z.toNat := by omega
              simp [charListLt, hxz]
            · by_cases h3 : z.toNat < y.toNat
              · simp [charListLt, h2, h3] at hbc
              · simp only [charListLt, if_neg h2, if_neg h3] at hbc
                have h5 : ¬ x.toNat < z.toNat := by omega
                have h6 : ¬ z.toNat < x.toNat := by omega
                simp only [charListLt, if_neg h5, if_neg h6]
                exact ih hab hbc

theorem charListLt_total {a b : List Char} (hne : a ≠ b) :
    charListLt a b = true ∨ charListLt b a = true := by
  induction a generalizing b with
  | nil =>
    cases b with
    | nil => exact absurd rfl hne
    | cons y ys => exact Or.inl rfl
  | cons x xs ih =>
    cases b with
    | nil => exact Or.inr rfl
    | cons y ys =>
      by_cases h1 : x.toNat < y.toNat
      · exact Or.inl (by simp [charListLt, h1])
      · by_cases h2 : y.toNat < x.toNat
        · exact Or.inr (by simp [charListLt, h2])
        · have hxy : x = y := charEq_of_toNat (by omega)
          subst hxy
          have hne2 : xs ≠ ys := fun h => hne (by rw [h])
          rcases ih hne2 with h | h
          · exact Or.inl (by simp only [charListLt, if_neg h1, if_neg h2]; exact h)
          · exact Or.inr (by simp only [charListLt, if_neg h1, if_neg h2]; exact h)

theorem strLt_trans {a b c : String} (hab : strLt a b = true)
    (hbc : strLt b c = true) : strLt a c = true :=
  charListLt_trans hab hbc

theorem strLt_total {a b : String} (hne : a ≠ b) :
    strLt a b = true ∨ strLt b a = true :=
  charListLt_total (fun h => hne (strEq_of_data h))

theorem mem_insertSorted {z x : String} {l : List String} :
    z ∈ insertSorted x l ↔ z = x ∨ z ∈ l := by
  induction l with
  | nil => simp [insertSorted]
  | cons y ys ih =>
    unfold insertSorted
    by_cases h1 : strLt x y = true
    · rw [if_pos h1]
      simp only [List.mem_cons]
    · rw [if_neg h1]
      by_cases h2 : x = y
      · rw [if_pos h2]
        subst h2
        simp only [List.mem_cons]
        tauto
      · rw [if_neg h2]
        simp only [List.mem_cons, ih]
        tauto

theorem pairwise_insertSorted {x : String} {l : List String}
    (h : l.Pairwise (fun a b => strLt a b = true)) :
    (insertSorted x l).Pairwise (fun a b => strLt a b = true) := by
  induction l with
  | nil => simp [insertSorted]
  | cons y ys ih =>
    rw [List.pairwise_cons] at h
    obtain ⟨hy, hys⟩ := h
    unfold insertSorted
    by_cases h1 : strLt x y = true
    · rw [if_pos h1]
      refine List.pairwise_cons.mpr ⟨?_, List.pairwise_cons.mpr ⟨hy, hys⟩⟩
      intro z hz
      rcases List.mem_cons.mp hz with rfl | hz
      · exact h1
      · exact strLt_trans h1 (hy z hz)
    · rw [if_neg h1]
      by_cases h2 : x = y
      · rw [if_pos h2]
        exact List.pairwise_cons.mpr ⟨hy, hys⟩
      · rw [if_neg h2]
        refine List.pairwise_cons.mpr ⟨?_, ih hys⟩
        intro z hz
        rcases mem_insertSorted.mp hz with rfl | hz
        · rcases strLt_total h2 with h | h
          · exact absurd h h1
          · exact h
        · exact hy z hz

theorem sortedDedup_pairwise (l : List String) :
    (sortedDedup l).Pairwise (fun a b => strLt a b = true) := by
  induction l with
  | nil => simp [sortedDedup]
  | cons x xs ih => exact pairwise_insertSorted ih

theorem mem_sortedDedup {z : String} {l : List String} :
    z ∈ sortedDedup l ↔ z ∈ l := by
  induction l with
  | nil => simp [sortedDedup]
  | cons x xs ih =>
    show z ∈ insertSorted x (sortedDedup xs) ↔ _
    rw [mem_insertSorted, ih, List.mem_cons]

theorem pyLookup_mem {r : Record} {k : String} {v : PyVal}
    (h : pyLookup r k = some v) : (k, v) ∈ r := by
  induction r with
  | nil => simp [pyLookup] at h
  | cons p rest ih =>
    obtain ⟨k', v'⟩ := p
    unfold pyLookup at h
    split at h
    · next heq =>
      injection h with h
      subst heq
      subst h
      exact List.mem_cons_self _ _
    · exact List.mem_cons_of_mem _ (ih h)

theorem dumpVal_getN_isSome {r : Record} (hs : serializable r = true) (k : String) :
    (dumpVal (pyGetN r k)).isSome = true := by
  unfold pyGetN
  cases hl : pyLookup r k with
  | none => rfl
  | some v =>
    have hv := List.all_eq_true.mp hs (k, v) (pyLookup_mem hl)
    cases v <;> first | rfl | simp at hv

theorem dumpEntries_isSome {r : Record} (hs : serializable r = true)
    (ks : List String) : (dumpEntries r ks).isSome = true := by
  induction ks with
  | nil => rfl
  | cons k ks ih =>
    unfold dumpEntries
    cases hd : dumpVal (pyGetN r k) with
    | none =>
      have := dumpVal_getN_isSome hs k
      rw [hd] at this
      simp at this
    | some s =>
      cases he : dumpEntries r ks with
      | none =>
        rw [he] at ih
        simp at ih
      | some rest => rfl

theorem dumpsRecord_isSome {r : Record} (hs : serializable r = true) :
    ∃ s, dumpsRecord r = some s := by
  unfold dumpsRecord
  cases he : dumpEntries r (sortedDedup (keys r)) with
  | none =>
    have := dumpEntries_isSome hs (sortedDedup (keys r))
    rw [he] at this
    simp at this
  | some parts => exact ⟨_, rfl⟩

theorem keccak_json_some {r : Record} (hs : serializable r = true) :
    ∃ d, keccak_json r = some d := by
  obtain ⟨s, hsd⟩ := dumpsRecord_isSome hs
  refine ⟨"0x" ++ bytesHex (keccak256 (utf8Bytes s)), ?_⟩
  unfold keccak_json
  rw [hsd]
  rfl

theorem dumpEntries_congr {a b : Record} (ks : List String)
    (h : ∀ k ∈ ks, pyLookup a k = pyLookup b k) :
    dumpEntries a ks = dumpEntries b ks := by
  induction ks with
  | nil => rfl
  | cons k ks ih =>
    have hk : pyGetN a k = pyGetN b k := by
      unfold pyGetN
      rw [h k (List.mem_cons_self _ _)]
    unfold dumpEntries
    rw [hk, ih (fun x hx => h x (List.mem_cons_of_mem _ hx))]

theorem pyDictEq_parts {a b : Record} (h : pyDictEq a b = true) :
    sortedDedup (keys a) = sortedDedup (keys b) ∧
    ∀ k ∈ sortedDedup (keys a), pyLookup a k = pyLookup b k := by
  unfold pyDictEq at h
  rw [Bool.and_eq_true] at h
  exact ⟨of_decide_eq_true h.1,
    fun k hk => of_decide_eq_true (List.all_eq_true.mp h.2 k hk)⟩

theorem dumps_congr {a b : Record} (h : pyDictEq a b = true) :
    dumpsRecord a = dumpsRecord b := by
  obtain ⟨hkeys, hvals⟩ := pyDictEq_parts h
  unfold dumpsRecord
  rw [dumpEntries_congr _ hvals, hkeys]

/-- C2: two successfully canonicalized records (hence non-error) that are
equal as Python dicts make compare_txs return Match carrying a single root
equal to digest(a), and the digests of both records agree. -/
theorem compare_match_on_equal (txa txb ca cb : Record)
    (ha : canonical_tx txa = .ok ca) (hb : canonical_tx txb = .ok cb)
    (hs : serializable ca = true) (heq : pyDictEq ca cb = true) :
    ∃ r, keccak_json ca = some r ∧ keccak_json cb = some r ∧
      compare_txs ca cb = some (.matched r) := by
  obtain ⟨s, hsd⟩ := dumpsRecord_isSome hs
  have hcbd : dumpsRecord cb = some s := (dumps_congr heq).symm.trans hsd
  refine ⟨"0x" ++ bytesHex (keccak256 (utf8Bytes s)), ?_, ?_, ?_⟩
  · unfold keccak_json
    rw [hsd]
    rfl
  · unfold keccak_json
    rw [hcbd]
    rfl
  · unfold compare_txs
    rw [canonical_no_error ha, canonical_no_error hb]
    rw [if_neg (by simp), if_pos heq]
    unfold keccak_json
    rw [hsd]
    rfl

/-- Witness for C2: the two raw records of the spec example (nonce 5, value
of one ether, gas 21000) arriving with different provider field orders
canonicalize to the same record, and compare_txs returns Match. -/
theorem compare_match_on_equal_witness :
    canonical_tx c2rawA = .ok c2can ∧ canonical_tx c2rawB = .ok c2can ∧
    serializable c2can = true ∧ pyDictEq c2can c2can = true ∧
    ∃ r, keccak_json c2can = some r ∧ keccak_json c2can = some r ∧
      compare_txs c2can c2can = some (.matched r) :=
  ⟨rfl, rfl, by decide, by decide,
    compare_match_on_equal c2rawA c2rawB c2can c2can rfl rfl (by decide) (by decide)⟩

theorem diffFields_mem (a b : Record) (k : String) (va vb : PyVal) :
    (k, va, vb) ∈ diffFields a b ↔
      ((k ∈ keys a ∨ k ∈ keys b) ∧ va = pyGetN a k ∧ vb = pyGetN b k ∧ va ≠ vb) := by
  unfold diffFields
  rw [List.mem_filterMap]
  constructor
  · rintro ⟨k', hk', hf⟩
    by_cases heq : pyGetN a k' = pyGetN b k'
    · rw [if_pos heq] at hf
      exact absurd hf (by simp)
    · rw [if_neg heq] at hf
      injection hf with hf
      simp only [Prod.mk.injEq] at hf
      obtain ⟨rfl, rfl, rfl⟩ := hf
      exact ⟨List.mem_append.mp (mem_sortedDedup.mp hk'), rfl, rfl, heq⟩
  · rintro ⟨hmem, rfl, rfl, hne⟩
    exact ⟨k, mem_sortedDedup.mpr (List.mem_append.mpr hmem), by rw [if_neg hne]⟩

theorem diffFields_sorted (a b : Record) :
    (diffFields a b).Pairwise (fun x y => strLt x.1 y.1 = true) := by
  unfold diffFields
  refine List.Pairwise.filterMap _ ?_ (sortedDedup_pairwise _)
  intro x y hxy p hp q hq
  by_cases h1 : pyGetN a x = pyGetN b x
  · rw [if_pos h1] at hp
    simp at hp
  · rw [if_neg h1] at hp
    by_cases h2 : pyGetN a y = pyGetN b y
    · rw [if_pos h2] at hq
      simp at hq
    · rw [if_neg h2] at hq
      simp only [Option.mem_def, Option.some.injEq] at hp hq
      rw [← hp, ← hq]
      exact hxy

theorem compare_mismatch_general (txa txb ca cb : Record)
    (ha : canonical_tx txa = .ok ca) (hb : canonical_tx txb = .ok cb)
    (hsa : serializable ca = true) (hsb : serializable cb = true)
    (hne : pyDictEq ca cb = false) :
    ∃ ra rb, keccak_json ca = some ra ∧ keccak_json cb = some rb ∧
      compare_txs ca cb = some (.mismatch ra rb (diffFields ca cb)) := by
  obtain ⟨ra, hra⟩ := keccak_json_some hsa
  obtain ⟨rb, hrb⟩ := keccak_json_some hsb
  refine ⟨ra, rb, hra, hrb, ?_⟩
  unfold compare_txs
  rw [canonical_no_error ha, canonical_no_error hb]
  rw [if_neg (by simp), if_neg (by simp [hne]), hra, hrb]

set_option maxRecDepth 200000 in
/-- C3: for canonical, non-error, hashable records that differ as Python
dicts, compare_txs returns Mismatch with rootA = digest(a), rootB =
digest(b) and fieldDiffs holding, over the code-point-sorted union of
field names, exactly the keys at which the values differ, with both raw
values; the two records of the spec example differing only in nonce (5
against 6) give fieldDiffs of exactly the nonce entry and distinct roots. -/
theorem compare_mismatch_spec :
    (∀ txa txb ca cb, canonical_tx txa = .ok ca → canonical_tx txb = .ok cb →
      serializable ca = true → serializable cb = true → pyDictEq ca cb = false →
      ∃ ra rb, keccak_json ca = some ra ∧ keccak_json cb = some rb ∧
        compare_txs ca cb = some (.mismatch ra rb (diffFields ca cb)) ∧
        (∀ k va vb, (k, va, vb) ∈ diffFields ca cb ↔
          ((k ∈ keys ca ∨ k ∈ keys cb) ∧ va = pyGetN ca k ∧ vb = pyGetN cb k ∧ va ≠ vb)) ∧
        (diffFields ca cb).Pairwise (fun x y => strLt x.1 y.1 = true)) ∧
    (keccak_json c3canA = some c3rootA ∧ keccak_json c3canB = some c3rootB ∧
     diffFields c3canA c3canB = [("nonce", PyVal.int 5, PyVal.int 6)] ∧
     compare_txs c3canA c3canB
       = some (.mismatch c3rootA c3rootB [("nonce", PyVal.int 5, PyVal.int 6)]) ∧
     c3rootA ≠ c3rootB) := by
  constructor
  · intro txa txb ca cb ha hb hsa hsb hne
    obtain ⟨ra, rb, hra, hrb, hcmp⟩ :=
      compare_mismatch_general txa txb ca cb ha hb hsa hsb hne
    exact ⟨ra, rb, hra, hrb, hcmp, diffFields_mem ca cb, diffFields_sorted ca cb⟩
  · have hA : keccak_json c3canA = some c3rootA := by decide
    have hB : keccak_json c3canB = some c3rootB := by decide
    have hd : diffFields c3canA c3canB = [("nonce", PyVal.int 5, PyVal.int 6)] := by
      decide
    obtain ⟨ra, rb, hra, hrb, hcmp⟩ := compare_mismatch_general c3rawA c3rawB
      c3canA c3canB rfl rfl (by decide) (by decide) (by decide)
    rw [hA] at hra
    rw [hB] at hrb
    injection hra with hra
    injection hrb with hrb
    rw [← hra, ← hrb, hd] at hcmp
    exact ⟨hA, hB, hd, hcmp, by decide⟩

/-- Witness for C3: the general mismatch statement instantiated at the two
records of the nonce example. -/
theorem compare_mismatch_spec_witness :
    canonical_tx c3rawA = .ok c3canA ∧ canonical_tx c3rawB = .ok c3canB ∧
    serializable c3canA = true ∧ serializable c3canB = true ∧
    pyDictEq c3canA c3canB = false ∧
    ∃ ra rb, keccak_json c3canA = some ra ∧ keccak_json c3canB = some rb ∧
      compare_txs c3canA c3canB = some (.mismatch ra rb (diffFields c3canA c3canB)) ∧
      (∀ k va vb, (k, va, vb) ∈ diffFields c3canA c3canB ↔
        ((k ∈ keys c3canA ∨ k ∈ keys c3canB) ∧
          va = pyGetN c3canA k ∧ vb = pyGetN c3canB k ∧ va ≠ vb)) ∧
      (diffFields c3canA c3canB).Pairwise (fun x y => strLt x.1 y.1 = true) :=
  ⟨rfl, rfl, by decide, by decide, by decide,
    compare_mismatch_spec.1 c3rawA c3rawB c3canA c3canB rfl rfl
      (by decide) (by decide) (by decide)⟩

end TxAttest
